import Mathlib

/-!
Shallow embedding of the Computer-Use Action Engine
(`autogen_a2a_kit/AG_action`): the FSM layer (`fsm/states.py`,
`fsm/transitions.py`, `fsm/controller.py`), the agent loop's image-retention
policy and iteration handling (`computer_use/agent_loop.py`), the
resolution-scaling coordinate math (`primitives/screen.py`), and the
tool executor's bash / text-editor branches (`computer_use/tool_executor.py`).

Conventions: Python `int` is `Int` (or `Nat` for counters that never go
negative), Python `float` arithmetic is modelled exactly over `Rat`
(`int()` truncation is `pyInt`), dicts whose contents the claims inspect are
association lists, and OS effects (clock timestamps, subprocess spawning,
file reads/writes, event-listener emission) are made explicit as inputs or
outputs of the embedded functions.
-/

set_option maxRecDepth 8000

namespace AG

/-- FSM states, `State` in `fsm/states.py`. -/
inductive State where
  | IDLE
  | SCREENSHOT
  | ANALYZE
  | ACTION
  | VERIFY
  | ERROR
  | COMPLETE
deriving DecidableEq

/-- Declaration order of the Python `State` enum, used by the
`for from_state in State` loop in `TransitionTable._setup_defaults`. -/
def stateEnumOrder : List State :=
  [.IDLE, .SCREENSHOT, .ANALYZE, .ACTION, .VERIFY, .ERROR, .COMPLETE]

/-- Allowed transitions, `VALID_TRANSITIONS` in `fsm/states.py`. -/
def VALID_TRANSITIONS : State → List State
  | .IDLE => [.SCREENSHOT, .ERROR]
  | .SCREENSHOT => [.ANALYZE, .ERROR]
  | .ANALYZE => [.ACTION, .ERROR, .COMPLETE]
  | .ACTION => [.VERIFY, .ERROR]
  | .VERIFY => [.ANALYZE, .COMPLETE, .ERROR]
  | .ERROR => [.IDLE]
  | .COMPLETE => [.IDLE]

/-- `is_valid_transition` in `fsm/states.py`. Every state is a key of the
Python dict, so the `from_state not in VALID_TRANSITIONS` branch is dead. -/
def is_valid_transition (from_state to_state : State) : Bool :=
  (VALID_TRANSITIONS from_state).any (fun s => s == to_state)

/-- String-keyed payload dict (`Dict[str, Any]` narrowed to the string
entries the claims inspect). The empty list stands for both Python `None`
and `{}`, which the source treats alike (`data or {}` / `if data:`). -/
def Payload := List (String × String)
deriving DecidableEq

instance : Append Payload := ⟨fun a b => List.append a b⟩

/-- Overwrite-or-append of one key, the per-key step of `dict.update`. -/
def setKey (d : Payload) (k v : String) : Payload :=
  if (List.any d fun p => p.1 == k) then
    List.map (fun p => if p.1 == k then (k, v) else p) d
  else
    List.append d [(k, v)]

/-- Python `dict.update`: fold the new entries into the old dict in order. -/
def dictUpdate (old new : Payload) : Payload :=
  match new with
  | [] => old
  | (k, v) :: rest => dictUpdate (setKey old k v) rest

/-- One entry of `FSMState.history` (`fsm/states.py`). The wall-clock
`timestamp` string is not modelled. -/
structure HistRecord where
  src : State
  dst : State
  payload : Payload
deriving DecidableEq

/-- The `FSMState` dataclass (`fsm/states.py`); the `started_at` /
`updated_at` clock fields are not modelled. -/
structure FSMState where
  current : State := .IDLE
  previous : Option State := none
  data : Payload := []
  history : List HistRecord := []
  error : Option String := none
deriving DecidableEq

/-- Fresh `FSMState()` as built at `FSMController.__init__`. -/
def FSMState.init : FSMState := {}

/-- `FSMState.transition_to`: unconditionally appends one history record,
moves `previous`/`current`, merges a non-empty payload into `data`, and
returns `True`. -/
def FSMState.transition_to (s : FSMState) (new_state : State)
    (data : Payload) : Bool × FSMState :=
  (true,
    { current := new_state
      previous := some s.current
      data := if data.isEmpty then s.data else dictUpdate s.data data
      history := s.history ++ [⟨s.current, new_state, data⟩]
      error := s.error })

/-- `FSMState.set_error` (`fsm/states.py`). -/
def FSMState.set_error (s : FSMState) (error : String) : FSMState :=
  let s := { s with error := some error }
  (s.transition_to .ERROR [("error", error)]).2

/-- `FSMState.reset`: back to `IDLE`, clears `data` and `error`,
keeps `history`. -/
def FSMState.reset (s : FSMState) : FSMState :=
  { s with current := .IDLE, previous := none, data := [], error := none }

/-- FSM events, `Event` in `fsm/transitions.py`. -/
inductive Event where
  | USER_REQUEST
  | SCREENSHOT_TAKEN
  | ACTION_DECIDED
  | ACTION_DONE
  | NEED_MORE
  | TASK_COMPLETE
  | ERROR
  | RECOVER
deriving DecidableEq

/-- The `Transition` dataclass (`fsm/transitions.py`), optional guard and
action callbacks included (every default transition leaves both `None`). -/
structure Transition where
  event : Event
  from_state : State
  to_state : State
  guard : Option (FSMState → Bool) := none
  action : Option (FSMState → Payload → FSMState) := none

/-- `Transition.can_execute`. -/
def Transition.canExecute (t : Transition) (s : FSMState) : Bool :=
  if s.current != t.from_state then false
  else if !(is_valid_transition t.from_state t.to_state) then false
  else
    match t.guard with
    | none => true
    | some g => g s

/-- `Transition.execute`: re-checks `can_execute`, runs the optional action
callback, then delegates to `FSMState.transition_to`. -/
def Transition.execute (t : Transition) (s : FSMState)
    (data : Payload) : Bool × FSMState :=
  if !(t.canExecute s) then (false, s)
  else
    let s' := match t.action with
      | none => s
      | some a => a s data
    s'.transition_to t.to_state data

/-- The list built by `TransitionTable._setup_defaults`: nine explicit
transitions followed by an `ERROR` transition for every state except
`ERROR` and `COMPLETE`, in enum declaration order. -/
def defaultTransitions : List Transition :=
  [⟨.USER_REQUEST, .IDLE, .SCREENSHOT, none, none⟩,
   ⟨.SCREENSHOT_TAKEN, .SCREENSHOT, .ANALYZE, none, none⟩,
   ⟨.ACTION_DECIDED, .ANALYZE, .ACTION, none, none⟩,
   ⟨.ACTION_DONE, .ACTION, .VERIFY, none, none⟩,
   ⟨.NEED_MORE, .VERIFY, .ANALYZE, none, none⟩,
   ⟨.TASK_COMPLETE, .VERIFY, .COMPLETE, none, none⟩,
   ⟨.TASK_COMPLETE, .ANALYZE, .COMPLETE, none, none⟩,
   ⟨.RECOVER, .ERROR, .IDLE, none, none⟩,
   ⟨.RECOVER, .COMPLETE, .IDLE, none, none⟩]
  ++ ((stateEnumOrder.filter
        (fun s => !(s == State.ERROR) && !(s == State.COMPLETE))).map
      (fun s => ⟨.ERROR, s, .ERROR, none, none⟩))

/-- Per-event bucket of `TransitionTable._transitions`: `add` appends in
`_setup_defaults` order, so the bucket for `e` is the filtered default
list in order. -/
def tableFor (e : Event) : List Transition :=
  defaultTransitions.filter (fun t => t.event == e)

/-- `TransitionTable.get`: first transition for the event whose
`can_execute` accepts the current state. -/
def tableGet (e : Event) (s : FSMState) : Option Transition :=
  (tableFor e).find? (fun t => t.canExecute s)

/-- `TransitionTable.fire`: `False` and untouched state when `get` finds
no executable transition, otherwise `Transition.execute`. -/
def fire (e : Event) (s : FSMState) (data : Payload) : Bool × FSMState :=
  match tableGet e s with
  | none => (false, s)
  | some t => t.execute s data

/-- The `FSMController` (`fsm/controller.py`): FSM state plus the action
queue and the iteration counter against the hard-coded bound
`_max_iterations = 20`. The listener registry only produces notification
side effects and is not modelled. -/
structure FSMController where
  state : FSMState := {}
  actionQueue : List (String × Payload) := []
  maxIterations : Nat := 20
  currentIteration : Nat := 0
deriving DecidableEq

/-- `FSMController()` as built in `ComputerUseAgent.__init__`. -/
def FSMController.init : FSMController := {}

/-- `FSMController.start`: only from `IDLE`; zeroes the iteration counter
then fires `USER_REQUEST`. -/
def FSMController.start (c : FSMController) (user_request : String) :
    Bool × FSMController :=
  if !(c.state.current == .IDLE) then (false, c)
  else
    let c := { c with currentIteration := 0 }
    let r := fire .USER_REQUEST c.state [("user_request", user_request)]
    (r.1, { c with state := r.2 })

/-- `FSMController.on_screenshot_taken` (screenshot bytes and metadata
abridged to one string entry). -/
def FSMController.on_screenshot_taken (c : FSMController)
    (screenshot : String) : Bool × FSMController :=
  if !(c.state.current == .SCREENSHOT) then (false, c)
  else
    let r := fire .SCREENSHOT_TAKEN c.state [("screenshot", screenshot)]
    (r.1, { c with state := r.2 })

/-- `FSMController.on_action_decided`: queues the request and fires
`ACTION_DECIDED` (the `request.to_dict()` payload abridged to the action
name). -/
def FSMController.on_action_decided (c : FSMController)
    (action_type : String) (params : Payload) : Bool × FSMController :=
  if !(c.state.current == .ANALYZE) then (false, c)
  else
    let c := { c with actionQueue := c.actionQueue ++ [(action_type, params)] }
    let r := fire .ACTION_DECIDED c.state [("action_request", action_type)]
    (r.1, { c with state := r.2 })

/-- `FSMController.on_action_done`: fires `ACTION_DONE` and increments the
iteration counter on success. -/
def FSMController.on_action_done (c : FSMController) :
    Bool × FSMController :=
  if !(c.state.current == .ACTION) then (false, c)
  else
    let r := fire .ACTION_DONE c.state [("action_result", "")]
    if r.1 then
      (true, { c with state := r.2,
                      currentIteration := c.currentIteration + 1 })
    else (false, { c with state := r.2 })

/-- `FSMController.complete`: only from `VERIFY` or `ANALYZE`; fires
`TASK_COMPLETE` with the result as `final_result`. -/
def FSMController.complete (c : FSMController) (result : String) :
    Bool × FSMController :=
  if !(c.state.current == .VERIFY) && !(c.state.current == .ANALYZE) then
    (false, c)
  else
    let r := fire .TASK_COMPLETE c.state [("final_result", result)]
    (r.1, { c with state := r.2 })

/-- `FSMController.need_more`: only from `VERIFY`; fires `NEED_MORE`. -/
def FSMController.need_more (c : FSMController) (reason : String) :
    Bool × FSMController :=
  if !(c.state.current == .VERIFY) then (false, c)
  else
    let r := fire .NEED_MORE c.state [("reason", reason)]
    (r.1, { c with state := r.2 })

/-- `FSMController.on_verify_result`: from `VERIFY`, a counter at or past
`_max_iterations` forces `complete("Max iterations (N) reached")`
regardless of `is_complete`; otherwise completes or loops back. -/
def FSMController.on_verify_result (c : FSMController) (is_complete : Bool)
    (reason : String) : Bool × FSMController :=
  if !(c.state.current == .VERIFY) then (false, c)
  else if c.maxIterations ≤ c.currentIteration then
    c.complete ("Max iterations (" ++ toString c.maxIterations ++ ") reached")
  else if is_complete then c.complete reason
  else c.need_more reason

/-- `FSMController.error`: fires `ERROR` from whatever the current state
is, and records the message in the error slot only on success. -/
def FSMController.errorEvent (c : FSMController) (error_msg : String) :
    Bool × FSMController :=
  let r := fire .ERROR c.state [("error", error_msg)]
  if r.1 then (true, { c with state := { r.2 with error := some error_msg } })
  else (false, { c with state := r.2 })

/-- `FSMController.recover`: only from `ERROR` or `COMPLETE`; fires
`RECOVER` with no payload and clears the error slot on success. -/
def FSMController.recover (c : FSMController) : Bool × FSMController :=
  if !(c.state.current == .ERROR) && !(c.state.current == .COMPLETE) then
    (false, c)
  else
    let r := fire .RECOVER c.state []
    if r.1 then (true, { c with state := { r.2 with error := none } })
    else (false, { c with state := r.2 })

/-- Outcome fields of `AgentResult` (`computer_use/agent_loop.py`) that the
claims inspect, together with the final controller. -/
structure RunOutcome where
  success : Bool
  error : Option String
  iterations : Nat
  fsm : FSMController
deriving DecidableEq

/-- One pass of the `for i in range(self.max_iterations)` body of
`ComputerUseAgent.run` when the model reply always carries exactly one
more `tool_use` request: `ANALYZE → ACTION` (`on_action_decided`), the
tool call, `ACTION → VERIFY` (`on_action_done`), then
`on_verify_result(is_complete=False, reason="continue")`. Message-list
bookkeeping and the remote call itself have no FSM effect and are
omitted. -/
def loopIter (c : FSMController) : FSMController :=
  let c := (c.on_action_decided "computer" []).2
  let c := (c.on_action_done).2
  let c := (c.on_verify_result false "continue").2
  c

/-- `ComputerUseAgent.run` for a run whose model keeps requesting more
work for all `max_iterations` passes (so the loop never breaks): FSM
`start`, the initial screenshot (`on_screenshot_taken`), `maxIterations`
loop passes, then the `for`-`else` branch, which calls
`fsm.error("Max iterations (N) reached")` and stores the same message in
`result.error` with `result.success` still `False`. The agent's
`max_iterations` argument is NOT forwarded to the controller, whose own
bound stays at the hard-coded 20. -/
def runAlwaysMore (max_iterations : Nat) : RunOutcome :=
  let c := FSMController.init
  let c := (c.start "goal").2
  let c := (c.on_screenshot_taken "img").2
  let c := loopIter^[max_iterations] c
  let msg := "Max iterations (" ++ toString max_iterations ++ ") reached"
  let c := (c.errorEvent msg).2
  { success := false, error := some msg, iterations := max_iterations,
    fsm := c }

/-- Python `int()` applied to an exact rational: truncation toward zero
(`primitives/screen.py` computes its coordinates with `int(...)`). -/
def pyInt (q : ℚ) : ℤ := if 0 ≤ q then ⌊q⌋ else ⌈q⌉

/-- The `ScalingInfo` dataclass (`primitives/screen.py`), float scale
factors modelled exactly over `ℚ`; defaults as in the dataclass. -/
structure ScalingInfo where
  enabled : Bool := false
  original_width : ℤ := 0
  original_height : ℤ := 0
  scaled_width : ℤ := 0
  scaled_height : ℤ := 0
  scale_x : ℚ := 1
  scale_y : ℚ := 1
deriving DecidableEq

/-- `ScalingInfo.to_original_coords`: identity when disabled, otherwise
`(int(x * scale_x), int(y * scale_y))`. -/
def ScalingInfo.to_original_coords (info : ScalingInfo) (scaled_x scaled_y : ℤ) :
    ℤ × ℤ :=
  if !info.enabled then (scaled_x, scaled_y)
  else (pyInt ((scaled_x : ℚ) * info.scale_x),
        pyInt ((scaled_y : ℚ) * info.scale_y))

/-- `ScalingInfo.to_scaled_coords`: identity when disabled, otherwise
`(int(x / scale_x), int(y / scale_y))`. -/
def ScalingInfo.to_scaled_coords (info : ScalingInfo) (original_x original_y : ℤ) :
    ℤ × ℤ :=
  if !info.enabled then (original_x, original_y)
  else (pyInt ((original_x : ℚ) / info.scale_x),
        pyInt ((original_y : ℚ) / info.scale_y))

/-- The `ScalingInfo` built by the real (non-dry-run) branch of
`ScreenActions.screenshot_scaled` for a capture of size `(W, H)` and a
target of size `(Tw, Th)`: one uniform ratio `min(Tw/W, Th/H)`, truncated
new dimensions, and per-axis factors `scale_x = W/new_width`,
`scale_y = H/new_height`. The image resize itself is not modelled. -/
def screenshotScaledInfo (W H Tw Th : ℤ) : ScalingInfo :=
  let rmin : ℚ := min ((Tw : ℚ) / (W : ℚ)) ((Th : ℚ) / (H : ℚ))
  let new_width := pyInt ((W : ℚ) * rmin)
  let new_height := pyInt ((H : ℚ) * rmin)
  { enabled := true
    original_width := W
    original_height := H
    scaled_width := new_width
    scaled_height := new_height
    scale_x := (W : ℚ) / (new_width : ℚ)
    scale_y := (H : ℚ) / (new_height : ℚ) }

/-- The `ScalingInfo(enabled=False)` built by the `ScalingTarget.NONE`
branch of `ScreenActions.screenshot_scaled` (all other fields left at the
dataclass defaults). -/
def screenshotScaledNoneInfo : ScalingInfo := {}

/-- Modelled from the spec: `to_original` as the spec words it —
`(round(x * scale_x), round(y * scale_y))` when scaling is active,
identity when disabled. -/
def to_original_round_spec (info : ScalingInfo) (scaled_x scaled_y : ℤ) : ℤ × ℤ :=
  if !info.enabled then (scaled_x, scaled_y)
  else (round ((scaled_x : ℚ) * info.scale_x), round ((scaled_y : ℚ) * info.scale_y))

/-- One content item of a conversation turn (`agent_loop.py` message
dicts): an image block, a text block, or any other dict item (tool
results etc.), which `_truncate_images` passes through unchanged. -/
inductive Block where
  | image (source : String)
  | text (t : String)
  | other (tag : String)
deriving DecidableEq

/-- A turn's `content`: either a bare string (skipped by the retention
walk) or a list of content blocks. -/
inductive Content where
  | str (s : String)
  | blocks (items : List Block)
deriving DecidableEq

/-- One message of `ComputerUseAgent._messages`. -/
structure Message where
  role : String
  content : Content
deriving DecidableEq

/-- The fixed replacement block `_truncate_images` writes over an old
image. -/
def placeholderBlock : Block := .text "[Image truncated for token efficiency]"

/-- Number of image blocks in a block list. -/
def countImagesBlocks : List Block → ℕ
  | [] => 0
  | .image _ :: rest => countImagesBlocks rest + 1
  | _ :: rest => countImagesBlocks rest

/-- Number of image blocks in one message (a bare-string content has
none). -/
def countImagesMsg (m : Message) : ℕ :=
  match m.content with
  | .str _ => 0
  | .blocks items => countImagesBlocks items

/-- Number of image blocks across a transcript. -/
def countImages (msgs : List Message) : ℕ :=
  (msgs.map countImagesMsg).sum

/-- The inner `for item in msg["content"]` rebuild of `_truncate_images`:
walk the blocks left to right with the running image counter `n`, keep an
image while `n < max_recent_images` (incrementing `n`), and replace every
further image with the placeholder text block. -/
def truncBlocks (M : ℤ) : ℕ → List Block → ℕ × List Block
  | n, [] => (n, [])
  | n, .image source :: rest =>
    if (n : ℤ) < M then
      ((truncBlocks M (n + 1) rest).1, .image source :: (truncBlocks M (n + 1) rest).2)
    else
      ((truncBlocks M n rest).1, placeholderBlock :: (truncBlocks M n rest).2)
  | n, .text t :: rest =>
    ((truncBlocks M n rest).1, .text t :: (truncBlocks M n rest).2)
  | n, .other tag :: rest =>
    ((truncBlocks M n rest).1, .other tag :: (truncBlocks M n rest).2)

/-- The outer `for msg in reversed(self._messages)` walk of
`_truncate_images`, given the transcript newest-first: bare-string
contents are skipped (`continue`), block lists are rebuilt with the
running counter threaded through. -/
def truncMessagesRev (M : ℤ) : ℕ → List Message → ℕ × List Message
  | n, [] => (n, [])
  | n, ⟨role, .str s⟩ :: rest =>
    ((truncMessagesRev M n rest).1, ⟨role, .str s⟩ :: (truncMessagesRev M n rest).2)
  | n, ⟨role, .blocks items⟩ :: rest =>
    ((truncMessagesRev M (truncBlocks M n items).1 rest).1,
     ⟨role, .blocks (truncBlocks M n items).2⟩ ::
       (truncMessagesRev M (truncBlocks M n items).1 rest).2)

/-- `ComputerUseAgent._truncate_images` on a transcript in chronological
order: a non-positive `max_recent_images` disables the policy entirely
(early `return`); otherwise the reversed transcript is walked with the
shared image counter and the rewritten turns are put back in order. -/
def truncateImages (M : ℤ) (msgs : List Message) : List Message :=
  if M ≤ 0 then msgs
  else ((truncMessagesRev M 0 msgs.reverse).2).reverse

/-- Modelled from the spec: the retention rule as the spec words it for
one block list — rank every image by the number of images encountered
before it on the walk (`base` of them in turns already visited, plus the
images to its left in this turn), keep it when its rank is below the
maximum, replace it with the fixed placeholder otherwise. Unlike
`truncBlocks`, the rank keeps counting past the maximum. -/
def blocksRetainSpec (M : ℤ) : ℕ → List Block → List Block
  | _, [] => []
  | r, .image source :: rest =>
    (if (r : ℤ) < M then Block.image source else placeholderBlock)
      :: blocksRetainSpec M (r + 1) rest
  | r, .text t :: rest => .text t :: blocksRetainSpec M r rest
  | r, .other tag :: rest => .other tag :: blocksRetainSpec M r rest

/-- Modelled from the spec: the retention rule over the newest-first
transcript, threading the image rank through the turns. -/
def msgsRetainSpecRev (M : ℤ) : ℕ → List Message → List Message
  | _, [] => []
  | r, ⟨role, .str s⟩ :: rest => ⟨role, .str s⟩ :: msgsRetainSpecRev M r rest
  | r, ⟨role, .blocks items⟩ :: rest =>
    ⟨role, .blocks (blocksRetainSpec M r items)⟩
      :: msgsRetainSpecRev M (r + countImagesBlocks items) rest

/-- Modelled from the spec: the whole retention policy — walk the
transcript newest to oldest, keep the first `M` images of the walk,
replace every other image in place by the fixed placeholder block. -/
def retainSpec (M : ℤ) (msgs : List Message) : List Message :=
  (msgsRetainSpecRev M 0 msgs.reverse).reverse

/-- Python substring test (`needle in hay`) over the character lists. -/
def containsSub : List Char → List Char → Bool
  | hay, needle =>
    if needle.isPrefixOf hay then true
    else
      match hay with
      | [] => false
      | _ :: rest => containsSub rest needle

/-- String-level wrapper for `containsSub`. -/
def strContainsSub (hay needle : String) : Bool :=
  containsSub hay.data needle.data

/-- The `{success, output, error}` dict every `ToolExecutor` branch
returns (`output` defaults to the empty string, `error` to `None`). -/
structure ToolResultEnv where
  success : Bool
  output : String := ""
  error : Option String := none
deriving DecidableEq

/-- Observable outcome of `ToolExecutor._execute_bash`: either a result
dict produced without touching the OS, or a `subprocess.run` call with the
command and its hard timeout in seconds (whose exit code and streams are
external inputs, folded by `bashResultEnvelope`). -/
inductive BashOutcome where
  | result (r : ToolResultEnv)
  | spawn (command : String) (timeoutSecs : ℕ)
deriving DecidableEq

/-- The deny list `dangerous` in `ToolExecutor._execute_bash`. -/
def dangerousPatterns : List String :=
  ["rm -rf /", ":()\x7b :|:& \x7d;:", "mkfs", "dd if="]

/-- `ToolExecutor._execute_bash` up to the `subprocess.run` call: dry-run
short-circuit first, then the missing-command check (`command` falsy and
`restart` falsy), then the substring deny list, and only then the spawn
with its 60-second timeout. -/
def executeBash (dry_run : Bool) (command : String) (restart : Bool) :
    BashOutcome :=
  if dry_run then
    .result { success := true, output := "[DRY_RUN] Would execute: " ++ command }
  else if command == "" && !restart then
    .result { success := false, error := some "Missing 'command'" }
  else if dangerousPatterns.any (fun d => strContainsSub command d) then
    .result { success := false, error := some "Dangerous command blocked" }
  else
    .spawn command 60

/-- How `_execute_bash` folds a finished subprocess into its result dict:
`success` is exit code zero, `output` is `stdout or stderr` (Python
truthiness: `stderr` when `stdout` is empty), and `error` is `stderr`
exactly when the exit code is nonzero. -/
def bashResultEnvelope (returncode : ℤ) (stdout stderr : String) :
    ToolResultEnv :=
  { success := returncode == 0
    output := if stdout == "" then stderr else stdout
    error := if returncode == 0 then none else some stderr }

/-- Python `content.replace(old, new, 1)` on character lists: rewrite the
leftmost occurrence of `old` (the empty `old` matches at the front) and
keep everything else verbatim. -/
def replaceFirst (s old new : List Char) : List Char :=
  if old.isPrefixOf s then new ++ s.drop old.length
  else
    match s with
    | [] => []
    | c :: rest => c :: replaceFirst rest old new

/-- Outcome of `ToolExecutor._str_replace`: the result dict plus the
content written back to the file, if any. -/
structure StrReplaceOutcome where
  env : ToolResultEnv
  written : Option (List Char)
deriving DecidableEq

/-- `ToolExecutor._str_replace` with the file system made explicit:
`file_exists` is the `os.path.exists` answer and `content` the file's
text. Missing file and missing occurrence fail without writing; otherwise
the first occurrence is rewritten and the new content written back. -/
def strReplace (path : String) (file_exists : Bool) (content old_str new_str : String) :
    StrReplaceOutcome :=
  if !file_exists then
    ⟨{ success := false, error := some ("File not found: " ++ path) }, none⟩
  else if !(containsSub content.data old_str.data) then
    ⟨{ success := false, error := some "String not found in file" }, none⟩
  else
    ⟨{ success := true, output := "Replaced in: " ++ path },
     some (replaceFirst content.data old_str.data new_str.data)⟩

/-- Relation between the code's capped image counter `n` and the spec's
uncapped walk rank `r`: they agree until the maximum is hit, after which
both sit at or past the maximum. -/
def RankRel (M : ℤ) (n r : ℕ) : Prop :=
  n = r ∨ (M ≤ (n : ℤ) ∧ M ≤ (r : ℤ))

/-! ## Theorems -/

/-- C2. For every FSM state and every event with no legal transition out
of it in the transition table (no table entry for the event whose
`can_execute` accepts the state), `TransitionTable.fire` returns `False`,
leaves the whole state — in particular `current` — unchanged, and appends
nothing to the history. -/
theorem fire_no_legal_transition_rejects (s : FSMState) (e : Event) (d : Payload)
    (h : ∀ t ∈ tableFor e, t.canExecute s = false) :
    fire e s d = (false, s) ∧ (fire e s d).2.current = s.current ∧
    (fire e s d).2.history = s.history := by
  have hget : tableGet e s = none := by
    unfold tableGet
    exact List.find?_eq_none.mpr (fun t ht => by simp [h t ht])
  refine ⟨?_, ?_, ?_⟩ <;> simp [fire, hget]

/-- Witness for `fire_no_legal_transition_rejects`: there is no legal
`ACTION_DONE` transition out of the initial `IDLE` state. -/
theorem fire_no_legal_transition_rejects_witness :
    (∀ t ∈ tableFor Event.ACTION_DONE, t.canExecute FSMState.init = false) ∧
    fire Event.ACTION_DONE FSMState.init [] = (false, FSMState.init) := by
  refine ⟨by decide, ?_⟩
  exact (fire_no_legal_transition_rejects FSMState.init Event.ACTION_DONE []
    (by decide)).1

/-- C10. `FSMState.transition_to` succeeds unconditionally: for every
current state and every target — legal pair or not — it returns `True`,
sets `current` to the target and appends exactly one history record;
legality is checked only in the `Transition` layer, whose `execute`
refuses and leaves the state untouched whenever `can_execute` does. -/
theorem transition_to_unconditional (s : FSMState) (target : State) (d : Payload) :
    (s.transition_to target d).1 = true ∧
    (s.transition_to target d).2.current = target ∧
    (s.transition_to target d).2.history = s.history ++ [⟨s.current, target, d⟩] ∧
    ∀ t : Transition, t.canExecute s = false → t.execute s d = (false, s) := by
  refine ⟨rfl, rfl, rfl, fun t ht => ?_⟩
  simp [Transition.execute, ht]

/-- Witness for `transition_to_unconditional`: the illegal pair
`IDLE → VERIFY` still succeeds on the state object, while the
`ACTION_DONE` table transition refuses to execute from `IDLE`. -/
theorem transition_to_unconditional_witness :
    (FSMState.init.transition_to State.VERIFY []).1 = true ∧
    (FSMState.init.transition_to State.VERIFY []).2.current = State.VERIFY ∧
    (FSMState.init.transition_to State.VERIFY []).2.history =
      [⟨State.IDLE, State.VERIFY, []⟩] ∧
    Transition.execute ⟨.ACTION_DONE, .ACTION, .VERIFY, none, none⟩ FSMState.init [] =
      (false, FSMState.init) := by
  obtain ⟨h1, h2, h3, h4⟩ := transition_to_unconditional FSMState.init State.VERIFY []
  exact ⟨h1, h2, h3, h4 _ (by decide)⟩

/-- C1 counterexample. A run whose model always wants more work and whose
configured bound is 1 does NOT end in `Complete`: the agent loop's
`for`-`else` branch fires the FSM `ERROR` event (legal from `ANALYZE`)
and reports `result.error = "Max iterations (1) reached"` with
`success = False` — bound exhaustion is reported as an error. -/
theorem max_iterations_reported_as_error_counterexample :
    (runAlwaysMore 1).fsm.state.current = State.ERROR ∧
    (runAlwaysMore 1).fsm.state.current ≠ State.COMPLETE ∧
    (runAlwaysMore 1).error = some "Max iterations (1) reached" ∧
    (runAlwaysMore 1).success = false := by decide

/-- C1 amended. The forced transition exists only at the controller: from
`VERIFY` with its internal counter at its own hard-coded bound,
`on_verify_result` forces `Complete` with a
"Max iterations (N) reached" `final_result` payload regardless of the
caller's verdict. The agent loop still reports bound exhaustion as an
error: even when its configured bound matches the controller's 20 (so the
FSM does end in `Complete`), `result.error` is set and `success` is
`False`. -/
theorem forced_complete_at_controller_bound (c : FSMController) (b : Bool) (r : String)
    (h1 : c.state.current = State.VERIFY)
    (h2 : c.maxIterations ≤ c.currentIteration) :
    (c.on_verify_result b r).1 = true ∧
    (c.on_verify_result b r).2.state.current = State.COMPLETE ∧
    ((c.on_verify_result b r).2.state.history).getLast? =
      some ⟨State.VERIFY, State.COMPLETE,
        [("final_result",
          "Max iterations (" ++ toString c.maxIterations ++ ") reached")]⟩ ∧
    (runAlwaysMore 20).fsm.state.current = State.COMPLETE ∧
    (runAlwaysMore 20).error = some "Max iterations (20) reached" ∧
    (runAlwaysMore 20).success = false := by
  have hfire : ∀ d, fire Event.TASK_COMPLETE c.state d = c.state.transition_to .COMPLETE d := by
    intro d
    simp [fire, tableGet, tableFor, defaultTransitions, stateEnumOrder,
      Transition.canExecute, Transition.execute, h1, is_valid_transition,
      VALID_TRANSITIONS]
  refine ⟨?_, ?_, ?_, by decide, by decide, by decide⟩ <;>
    simp [FSMController.on_verify_result, FSMController.complete, h1, h2, hfire,
      FSMState.transition_to, List.getLast?_concat]

/-- Witness for `forced_complete_at_controller_bound`: a controller
sitting in `VERIFY` with bound 0 already reached. -/
theorem forced_complete_at_controller_bound_witness :
    ((⟨{ current := .VERIFY }, [], 0, 0⟩ : FSMController).on_verify_result false "done").1
      = true ∧
    ((⟨{ current := .VERIFY }, [], 0, 0⟩ : FSMController).on_verify_result false
      "done").2.state.current = State.COMPLETE := by
  obtain ⟨h1, h2, -⟩ :=
    forced_complete_at_controller_bound ⟨{ current := .VERIFY }, [], 0, 0⟩
      false "done" rfl (by decide)
  exact ⟨h1, h2⟩

/-- Inner walk of the retention policy versus the spec's rank rule: same
rewritten blocks, counter advanced by exactly the kept images, counter
still at most `M`, and the counter/rank relation re-established for the
rest of the walk. -/
theorem truncBlocks_spec (M : ℤ) (bs : List Block) : ∀ (n r : ℕ),
    (n : ℤ) ≤ M → RankRel M n r →
    (truncBlocks M n bs).2 = blocksRetainSpec M r bs ∧
    (truncBlocks M n bs).1 = n + countImagesBlocks (truncBlocks M n bs).2 ∧
    ((truncBlocks M n bs).1 : ℤ) ≤ M ∧
    RankRel M (truncBlocks M n bs).1 (r + countImagesBlocks bs) := by
  induction bs with
  | nil =>
    intro n r hn hrel
    exact ⟨rfl, by simp [truncBlocks, countImagesBlocks], hn, by simpa using hrel⟩
  | cons b rest ih =>
    intro n r hn hrel
    cases b with
    | image source =>
      by_cases hlt : (n : ℤ) < M
      · have hnr : n = r := by
          rcases hrel with h | ⟨h, _⟩
          · exact h
          · omega
        subst hnr
        obtain ⟨ih1, ih2, ih3, ih4⟩ := ih (n + 1) (n + 1) (by omega) (Or.inl rfl)
        refine ⟨?_, ?_, ?_, ?_⟩
        · simp only [truncBlocks, blocksRetainSpec, if_pos hlt]
          rw [ih1]
        · simp only [truncBlocks, if_pos hlt, countImagesBlocks]
          omega
        · simp only [truncBlocks, if_pos hlt]
          exact ih3
        · simp only [truncBlocks, if_pos hlt, countImagesBlocks]
          have harith : n + (countImagesBlocks rest + 1) = n + 1 + countImagesBlocks rest := by
            omega
          rw [harith]
          exact ih4
      · have hMn : M ≤ (n : ℤ) := by omega
        have hMr : M ≤ (r : ℤ) := by
          rcases hrel with h | ⟨_, h⟩
          · omega
          · exact h
        have hrlt : ¬ ((r : ℤ) < M) := by omega
        obtain ⟨ih1, ih2, ih3, ih4⟩ := ih n (r + 1) hn (Or.inr ⟨hMn, by push_cast; omega⟩)
        refine ⟨?_, ?_, ?_, ?_⟩
        · simp only [truncBlocks, blocksRetainSpec, if_neg hlt, if_neg hrlt]
          rw [ih1]
        · simp only [truncBlocks, if_neg hlt, placeholderBlock, countImagesBlocks]
          exact ih2
        · simp only [truncBlocks, if_neg hlt]
          exact ih3
        · simp only [truncBlocks, if_neg hlt, countImagesBlocks]
          have harith : r + (countImagesBlocks rest + 1) = r + 1 + countImagesBlocks rest := by
            omega
          rw [harith]
          exact ih4
    | text t =>
      obtain ⟨ih1, ih2, ih3, ih4⟩ := ih n r hn hrel
      exact ⟨by simp only [truncBlocks, blocksRetainSpec]; rw [ih1],
        by simp only [truncBlocks, countImagesBlocks]; exact ih2,
        by simp only [truncBlocks]; exact ih3,
        by simp only [truncBlocks, countImagesBlocks]; exact ih4⟩
    | other tag =>
      obtain ⟨ih1, ih2, ih3, ih4⟩ := ih n r hn hrel
      exact ⟨by simp only [truncBlocks, blocksRetainSpec]; rw [ih1],
        by simp only [truncBlocks, countImagesBlocks]; exact ih2,
        by simp only [truncBlocks]; exact ih3,
        by simp only [truncBlocks, countImagesBlocks]; exact ih4⟩

/-- Outer walk of the retention policy versus the spec's rank rule: same
rewritten transcript, counter advanced by exactly the kept images, and
counter still at most `M`. -/
theorem truncMessagesRev_spec (M : ℤ) (ms : List Message) : ∀ (n r : ℕ),
    (n : ℤ) ≤ M → RankRel M n r →
    (truncMessagesRev M n ms).2 = msgsRetainSpecRev M r ms ∧
    (truncMessagesRev M n ms).1 = n + countImages (truncMessagesRev M n ms).2 ∧
    ((truncMessagesRev M n ms).1 : ℤ) ≤ M := by
  induction ms with
  | nil =>
    intro n r hn hrel
    exact ⟨rfl, by simp [truncMessagesRev, countImages], hn⟩
  | cons m rest ih =>
    intro n r hn hrel
    obtain ⟨role, content⟩ := m
    cases content with
    | str s =>
      obtain ⟨ih1, ih2, ih3⟩ := ih n r hn hrel
      refine ⟨?_, ?_, ?_⟩
      · simp only [truncMessagesRev, msgsRetainSpecRev]
        rw [ih1]
      · simp only [truncMessagesRev, countImages, List.map_cons, List.sum_cons,
          countImagesMsg]
        simpa [countImages] using ih2
      · simp only [truncMessagesRev]
        exact ih3
    | blocks items =>
      obtain ⟨b1, b2, b3, b4⟩ := truncBlocks_spec M items n r hn hrel
      obtain ⟨ih1, ih2, ih3⟩ := ih (truncBlocks M n items).1
        (r + countImagesBlocks items) b3 b4
      refine ⟨?_, ?_, ?_⟩
      · simp only [truncMessagesRev, msgsRetainSpecRev]
        rw [b1, ih1]
      · simp only [truncMessagesRev, countImages, List.map_cons, List.sum_cons,
          countImagesMsg]
        have hrest : (truncMessagesRev M (truncBlocks M n items).1 rest).1 =
            (truncBlocks M n items).1 +
              countImages (truncMessagesRev M (truncBlocks M n items).1 rest).2 := ih2
        simp only [countImages] at hrest ⊢
        omega
      · simp only [truncMessagesRev]
        exact ih3

/-- The retention walk rewrites turns in place: the transcript keeps its
length. -/
theorem truncMessagesRev_len (M : ℤ) (ms : List Message) : ∀ (n : ℕ),
    (truncMessagesRev M n ms).2.length = ms.length := by
  induction ms with
  | nil => intro n; rfl
  | cons m rest ih =>
    intro n
    obtain ⟨role, content⟩ := m
    cases content with
    | str s => simp only [truncMessagesRev, List.length_cons, ih]
    | blocks items => simp only [truncMessagesRev, List.length_cons, ih]

/-- Reversing a transcript does not change its image count. -/
theorem countImages_reverse (l : List Message) :
    countImages l.reverse = countImages l := by
  simp [countImages, List.map_reverse, List.sum_reverse]

/-- C4 counterexample. With a configured maximum of 0 the policy's early
`return` keeps every image: this transcript still holds one image block
afterwards, so "at most M image blocks" fails at `M = 0`. -/
theorem retention_zero_max_counterexample :
    truncateImages 0 [⟨"user", .blocks [.image "img0"]⟩] =
      [⟨"user", .blocks [.image "img0"]⟩] ∧
    countImages (truncateImages 0 [⟨"user", .blocks [.image "img0"]⟩]) = 1 ∧
    ¬ countImages (truncateImages 0 [⟨"user", .blocks [.image "img0"]⟩]) ≤ 0 := by
  decide

/-- C4 amended. For every positive configured maximum `M`: after the
retention policy runs the transcript holds at most `M` image blocks, and
the result is exactly the spec's walk — turns in original number and
order, every image whose newest-to-oldest walk rank is at least `M`
replaced in place by the fixed placeholder text block, everything else
untouched (a maximum `≤ 0` instead disables the policy and leaves the
transcript unchanged). -/
theorem retention_bound_and_walk_spec (M : ℤ) (msgs : List Message) (h : 0 < M) :
    (countImages (truncateImages M msgs) : ℤ) ≤ M ∧
    truncateImages M msgs = retainSpec M msgs ∧
    (truncateImages M msgs).length = msgs.length := by
  have hM : ¬ (M ≤ 0) := by omega
  obtain ⟨e1, e2, e3⟩ := truncMessagesRev_spec M msgs.reverse 0 0 (by omega) (Or.inl rfl)
  unfold truncateImages retainSpec
  rw [if_neg hM]
  refine ⟨?_, by rw [e1], ?_⟩
  · rw [countImages_reverse]
    omega
  · rw [List.length_reverse, truncMessagesRev_len, List.length_reverse]

/-- Witness for `retention_bound_and_walk_spec` at `M = 2` on a transcript
with three images. -/
theorem retention_bound_and_walk_spec_witness :
    (0 : ℤ) < 2 ∧
    ((countImages (truncateImages 2
        [⟨"user", .blocks [.image "a", .text "hi", .image "b", .image "c"]⟩,
         ⟨"assistant", .str "ok"⟩]) : ℤ) ≤ 2 ∧
      truncateImages 2
        [⟨"user", .blocks [.image "a", .text "hi", .image "b", .image "c"]⟩,
         ⟨"assistant", .str "ok"⟩] =
        retainSpec 2
          [⟨"user", .blocks [.image "a", .text "hi", .image "b", .image "c"]⟩,
           ⟨"assistant", .str "ok"⟩] ∧
      (truncateImages 2
        [⟨"user", .blocks [.image "a", .text "hi", .image "b", .image "c"]⟩,
         ⟨"assistant", .str "ok"⟩]).length = 2) := by
  refine ⟨by decide, ?_⟩
  have := retention_bound_and_walk_spec 2
    [⟨"user", .blocks [.image "a", .text "hi", .image "b", .image "c"]⟩,
     ⟨"assistant", .str "ok"⟩] (by decide)
  simpa using this

/-- Truncation agrees with the floor on nonnegative rationals. -/
theorem pyInt_of_nonneg (q : ℚ) (h : 0 ≤ q) : pyInt q = ⌊q⌋ := by
  simp [pyInt, h]

/-- Core round-trip estimate for the truncating coordinate transforms:
dividing by a positive scale, truncating, multiplying back and truncating
again never overshoots the original value and undershoots it by strictly
less than `scale + 1`. -/
theorem pyInt_roundtrip (s : ℚ) (hs : 0 < s) (x : ℤ) (hx : 0 ≤ x) :
    pyInt ((pyInt ((x : ℚ) / s) : ℚ) * s) ≤ x ∧
    (x : ℚ) - (pyInt ((pyInt ((x : ℚ) / s) : ℚ) * s) : ℚ) < s + 1 := by
  have hq : (0 : ℚ) ≤ (x : ℚ) / s := div_nonneg (by exact_mod_cast hx) hs.le
  rw [pyInt_of_nonneg _ hq]
  have ht0 : (0 : ℤ) ≤ ⌊(x : ℚ) / s⌋ := Int.floor_nonneg.mpr hq
  have hts : (0 : ℚ) ≤ (⌊(x : ℚ) / s⌋ : ℚ) * s :=
    mul_nonneg (by exact_mod_cast ht0) hs.le
  rw [pyInt_of_nonneg _ hts]
  have h1 : (⌊(x : ℚ) / s⌋ : ℚ) * s ≤ (x : ℚ) := by
    have hfl : (⌊(x : ℚ) / s⌋ : ℚ) ≤ (x : ℚ) / s := Int.floor_le _
    calc (⌊(x : ℚ) / s⌋ : ℚ) * s ≤ ((x : ℚ) / s) * s :=
          mul_le_mul_of_nonneg_right hfl hs.le
      _ = (x : ℚ) := div_mul_cancel₀ _ (ne_of_gt hs)
  have hback_le : ⌊(⌊(x : ℚ) / s⌋ : ℚ) * s⌋ ≤ x := by
    have := Int.floor_le_floor h1
    simpa using this
  have h2 : (x : ℚ) < (⌊(x : ℚ) / s⌋ : ℚ) * s + s := by
    have hlt : (x : ℚ) / s < (⌊(x : ℚ) / s⌋ : ℚ) + 1 := Int.lt_floor_add_one _
    have hmul : (x : ℚ) < ((⌊(x : ℚ) / s⌋ : ℚ) + 1) * s := (div_lt_iff₀ hs).mp hlt
    calc (x : ℚ) < ((⌊(x : ℚ) / s⌋ : ℚ) + 1) * s := hmul
      _ = (⌊(x : ℚ) / s⌋ : ℚ) * s + s := by ring
  have h3 : (⌊(x : ℚ) / s⌋ : ℚ) * s < (⌊(⌊(x : ℚ) / s⌋ : ℚ) * s⌋ : ℚ) + 1 :=
    Int.lt_floor_add_one _
  exact ⟨hback_le, by linarith⟩

/-- C3 counterexample. A 1920x1080 capture scaled to the XGA target gives
`scale_x = 15/8`; the point `(3, 3)` maps to scaled coordinates `(1, 1)`
and back to `(1, 1)`, which is 2 pixels away from the original on each
axis — more than one pixel. -/
theorem roundtrip_one_pixel_counterexample :
    ((screenshotScaledInfo 1920 1080 1024 768).to_original_coords
      ((screenshotScaledInfo 1920 1080 1024 768).to_scaled_coords 3 3).1
      ((screenshotScaledInfo 1920 1080 1024 768).to_scaled_coords 3 3).2) = (1, 1) ∧
    ¬ ((3 - (1 : ℤ)).natAbs ≤ 1) := by
  constructor
  · norm_num [screenshotScaledInfo, ScalingInfo.to_scaled_coords,
      ScalingInfo.to_original_coords, pyInt]
  · decide

/-- C3 amended. For any in-bounds point of a capture scaled with the
uniform `min` ratio (and nondegenerate scaled dimensions), the scaled
round trip never overshoots the original coordinate and undershoots it by
strictly less than `scale + 1` pixels on each axis (so only when the
per-axis scale factor is at most 1 is it guaranteed within one pixel). -/
theorem roundtrip_truncation_bound (W H Tw Th x y : ℤ)
    (hW : 0 < W) (hH : 0 < H)
    (hnw : 0 < (screenshotScaledInfo W H Tw Th).scaled_width)
    (hnh : 0 < (screenshotScaledInfo W H Tw Th).scaled_height)
    (hx0 : 0 ≤ x) (_hxW : x < W) (hy0 : 0 ≤ y) (_hyH : y < H) :
    ((screenshotScaledInfo W H Tw Th).to_original_coords
        ((screenshotScaledInfo W H Tw Th).to_scaled_coords x y).1
        ((screenshotScaledInfo W H Tw Th).to_scaled_coords x y).2).1 ≤ x ∧
    (x : ℚ) - (((screenshotScaledInfo W H Tw Th).to_original_coords
        ((screenshotScaledInfo W H Tw Th).to_scaled_coords x y).1
        ((screenshotScaledInfo W H Tw Th).to_scaled_coords x y).2).1 : ℚ)
      < (screenshotScaledInfo W H Tw Th).scale_x + 1 ∧
    ((screenshotScaledInfo W H Tw Th).to_original_coords
        ((screenshotScaledInfo W H Tw Th).to_scaled_coords x y).1
        ((screenshotScaledInfo W H Tw Th).to_scaled_coords x y).2).2 ≤ y ∧
    (y : ℚ) - (((screenshotScaledInfo W H Tw Th).to_original_coords
        ((screenshotScaledInfo W H Tw Th).to_scaled_coords x y).1
        ((screenshotScaledInfo W H Tw Th).to_scaled_coords x y).2).2 : ℚ)
      < (screenshotScaledInfo W H Tw Th).scale_y + 1 := by
  have e_enabled : (screenshotScaledInfo W H Tw Th).enabled = true := rfl
  have hsx : 0 < (screenshotScaledInfo W H Tw Th).scale_x := by
    have e : (screenshotScaledInfo W H Tw Th).scale_x =
        (W : ℚ) / (((screenshotScaledInfo W H Tw Th).scaled_width : ℤ) : ℚ) := rfl
    rw [e]
    exact div_pos (by exact_mod_cast hW) (by exact_mod_cast hnw)
  have hsy : 0 < (screenshotScaledInfo W H Tw Th).scale_y := by
    have e : (screenshotScaledInfo W H Tw Th).scale_y =
        (H : ℚ) / (((screenshotScaledInfo W H Tw Th).scaled_height : ℤ) : ℚ) := rfl
    rw [e]
    exact div_pos (by exact_mod_cast hH) (by exact_mod_cast hnh)
  obtain ⟨hx1, hx2⟩ := pyInt_roundtrip _ hsx x hx0
  obtain ⟨hy1, hy2⟩ := pyInt_roundtrip _ hsy y hy0
  refine ⟨?_, ?_, ?_, ?_⟩ <;>
    simp only [ScalingInfo.to_original_coords, ScalingInfo.to_scaled_coords,
      e_enabled, Bool.not_true, Bool.false_eq_true, if_false] <;>
    assumption

/-- Witness for `roundtrip_truncation_bound` at the 1920x1080-to-XGA
capture and the point `(3, 3)`. -/
theorem roundtrip_truncation_bound_witness :
    (0 : ℤ) < (screenshotScaledInfo 1920 1080 1024 768).scaled_width ∧
    (0 : ℤ) < (screenshotScaledInfo 1920 1080 1024 768).scaled_height ∧
    (((screenshotScaledInfo 1920 1080 1024 768).to_original_coords
        ((screenshotScaledInfo 1920 1080 1024 768).to_scaled_coords 3 3).1
        ((screenshotScaledInfo 1920 1080 1024 768).to_scaled_coords 3 3).2).1 ≤ 3 ∧
      (3 : ℚ) - (((screenshotScaledInfo 1920 1080 1024 768).to_original_coords
          ((screenshotScaledInfo 1920 1080 1024 768).to_scaled_coords 3 3).1
          ((screenshotScaledInfo 1920 1080 1024 768).to_scaled_coords 3 3).2).1 : ℚ)
        < (screenshotScaledInfo 1920 1080 1024 768).scale_x + 1 ∧
      ((screenshotScaledInfo 1920 1080 1024 768).to_original_coords
        ((screenshotScaledInfo 1920 1080 1024 768).to_scaled_coords 3 3).1
        ((screenshotScaledInfo 1920 1080 1024 768).to_scaled_coords 3 3).2).2 ≤ 3 ∧
      (3 : ℚ) - (((screenshotScaledInfo 1920 1080 1024 768).to_original_coords
          ((screenshotScaledInfo 1920 1080 1024 768).to_scaled_coords 3 3).1
          ((screenshotScaledInfo 1920 1080 1024 768).to_scaled_coords 3 3).2).2 : ℚ)
        < (screenshotScaledInfo 1920 1080 1024 768).scale_y + 1) := by
  have hnw : (0 : ℤ) < (screenshotScaledInfo 1920 1080 1024 768).scaled_width := by
    norm_num [screenshotScaledInfo, pyInt]
  have hnh : (0 : ℤ) < (screenshotScaledInfo 1920 1080 1024 768).scaled_height := by
    norm_num [screenshotScaledInfo, pyInt]
  exact ⟨hnw, hnh,
    roundtrip_truncation_bound 1920 1080 1024 768 3 3 (by norm_num) (by norm_num)
      hnw hnh (by norm_num) (by norm_num) (by norm_num) (by norm_num)⟩

/-- C5 counterexample. With the 1920x1080-to-XGA capture
(`scale_x = scale_y = 15/8`), the code computes
`to_original(1, 1) = (int(1.875), int(1.875)) = (1, 1)` while the spec's
`round` gives `(2, 2)`. -/
theorem to_original_round_counterexample :
    (screenshotScaledInfo 1920 1080 1024 768).to_original_coords 1 1 = (1, 1) ∧
    to_original_round_spec (screenshotScaledInfo 1920 1080 1024 768) 1 1 = (2, 2) ∧
    (screenshotScaledInfo 1920 1080 1024 768).to_original_coords 1 1 ≠
      to_original_round_spec (screenshotScaledInfo 1920 1080 1024 768) 1 1 := by
  have hA : (screenshotScaledInfo 1920 1080 1024 768).to_original_coords 1 1 = (1, 1) := by
    norm_num [screenshotScaledInfo, ScalingInfo.to_original_coords, pyInt]
  have hB : to_original_round_spec (screenshotScaledInfo 1920 1080 1024 768) 1 1 = (2, 2) := by
    norm_num [screenshotScaledInfo, to_original_round_spec, round_eq, pyInt]
  refine ⟨hA, hB, ?_⟩
  rw [hA, hB]
  decide

/-- C5 amended. When scaling is active, `to_original(x, y)` is
`(int(x * scale_x), int(y * scale_y))` — truncation toward zero, which on
nonnegative coordinates and scale factors is the floor, and therefore
equals the spec's rounded value or falls exactly one below it. -/
theorem to_original_truncation (info : ScalingInfo) (scaled_x scaled_y : ℤ)
    (he : info.enabled = true) (hx : 0 ≤ scaled_x) (hy : 0 ≤ scaled_y)
    (hsx : 0 ≤ info.scale_x) (hsy : 0 ≤ info.scale_y) :
    info.to_original_coords scaled_x scaled_y =
      (⌊(scaled_x : ℚ) * info.scale_x⌋, ⌊(scaled_y : ℚ) * info.scale_y⌋) ∧
    (to_original_round_spec info scaled_x scaled_y).1 - 1 ≤
      (info.to_original_coords scaled_x scaled_y).1 ∧
    (info.to_original_coords scaled_x scaled_y).1 ≤
      (to_original_round_spec info scaled_x scaled_y).1 ∧
    (to_original_round_spec info scaled_x scaled_y).2 - 1 ≤
      (info.to_original_coords scaled_x scaled_y).2 ∧
    (info.to_original_coords scaled_x scaled_y).2 ≤
      (to_original_round_spec info scaled_x scaled_y).2 := by
  have hqx : (0 : ℚ) ≤ (scaled_x : ℚ) * info.scale_x :=
    mul_nonneg (by exact_mod_cast hx) hsx
  have hqy : (0 : ℚ) ≤ (scaled_y : ℚ) * info.scale_y :=
    mul_nonneg (by exact_mod_cast hy) hsy
  have floor_round (q : ℚ) : ⌊q⌋ ≤ round q ∧ round q ≤ ⌊q⌋ + 1 := by
    rw [round_eq]
    constructor
    · exact Int.floor_le_floor (by linarith)
    · calc ⌊q + 1 / 2⌋ ≤ ⌊q + 1⌋ := Int.floor_le_floor (by linarith)
        _ = ⌊q⌋ + 1 := by exact_mod_cast Int.floor_add_int q 1
  have ex : info.to_original_coords scaled_x scaled_y =
      (⌊(scaled_x : ℚ) * info.scale_x⌋, ⌊(scaled_y : ℚ) * info.scale_y⌋) := by
    simp only [ScalingInfo.to_original_coords, he, Bool.not_true,
      Bool.false_eq_true, if_false]
    rw [pyInt_of_nonneg _ hqx, pyInt_of_nonneg _ hqy]
  have er : to_original_round_spec info scaled_x scaled_y =
      (round ((scaled_x : ℚ) * info.scale_x), round ((scaled_y : ℚ) * info.scale_y)) := by
    simp only [to_original_round_spec, he, Bool.not_true, Bool.false_eq_true, if_false]
  obtain ⟨hfx, hfx'⟩ := floor_round ((scaled_x : ℚ) * info.scale_x)
  obtain ⟨hfy, hfy'⟩ := floor_round ((scaled_y : ℚ) * info.scale_y)
  rw [ex, er]
  exact ⟨rfl, by omega, by omega, by omega, by omega⟩

/-- Witness for `to_original_truncation` at the 1920x1080-to-XGA capture
and the scaled point `(1, 1)`. -/
theorem to_original_truncation_witness :
    (0 : ℚ) ≤ (screenshotScaledInfo 1920 1080 1024 768).scale_x ∧
    (0 : ℚ) ≤ (screenshotScaledInfo 1920 1080 1024 768).scale_y ∧
    (screenshotScaledInfo 1920 1080 1024 768).to_original_coords 1 1 =
      (⌊(1 : ℚ) * (screenshotScaledInfo 1920 1080 1024 768).scale_x⌋,
       ⌊(1 : ℚ) * (screenshotScaledInfo 1920 1080 1024 768).scale_y⌋) := by
  have hsx : (0 : ℚ) ≤ (screenshotScaledInfo 1920 1080 1024 768).scale_x := by
    norm_num [screenshotScaledInfo, pyInt]
  have hsy : (0 : ℚ) ≤ (screenshotScaledInfo 1920 1080 1024 768).scale_y := by
    norm_num [screenshotScaledInfo, pyInt]
  have h := (to_original_truncation (screenshotScaledInfo 1920 1080 1024 768) 1 1
    rfl (by norm_num) (by norm_num) hsx hsy).1
  exact ⟨hsx, hsy, by exact_mod_cast h⟩

/-- C9. A disabled Scaling Info is the identity transform: both
`to_original_coords` and `to_scaled_coords` return their input unchanged
for every coordinate, and the `ScalingTarget.NONE` branch of
`screenshot_scaled` does hand back such a disabled record. -/
theorem disabled_scaling_identity (info : ScalingInfo) (x y : ℤ)
    (h : info.enabled = false) :
    info.to_original_coords x y = (x, y) ∧
    info.to_scaled_coords x y = (x, y) ∧
    screenshotScaledNoneInfo.enabled = false := by
  refine ⟨?_, ?_, rfl⟩ <;>
    simp [ScalingInfo.to_original_coords, ScalingInfo.to_scaled_coords, h]

/-- Witness for `disabled_scaling_identity` on the `NONE`-branch record at
the point `(7, -9)`. -/
theorem disabled_scaling_identity_witness :
    screenshotScaledNoneInfo.enabled = false ∧
    screenshotScaledNoneInfo.to_original_coords 7 (-9) = (7, -9) := by
  exact ⟨rfl, (disabled_scaling_identity screenshotScaledNoneInfo 7 (-9) rfl).1⟩

/-- C6 counterexample. In dry-run mode the deny list is never consulted:
a command containing the deny-listed `rm -rf /` pattern comes back with
`success = True` (and a "would execute" message), not `success = false`.
No subprocess is created, but the claimed failure result is not
returned. -/
theorem denylist_dry_run_counterexample :
    dangerousPatterns.any (fun d => strContainsSub "sudo rm -rf /" d) = true ∧
    executeBash true "sudo rm -rf /" false =
      .result { success := true, output := "[DRY_RUN] Would execute: sudo rm -rf /",
                error := none } ∧
    executeBash true "sudo rm -rf /" false ≠
      .result { success := false, error := some "Dangerous command blocked" } := by
  decide

/-- C6 amended. With dry-run disabled, every command containing a
deny-listed destructive pattern is answered by a structured
`success = false` result and `subprocess.run` is never reached; with
dry-run enabled no subprocess is created either, but the deny list is
skipped and the result reports `success = True` with a "would execute"
message. -/
theorem denylist_blocks_before_spawn (command : String) (restart : Bool)
    (hd : dangerousPatterns.any (fun d => strContainsSub command d) = true) :
    (∃ r : ToolResultEnv,
      executeBash false command restart = .result r ∧ r.success = false) ∧
    (∀ c t, executeBash false command restart ≠ .spawn c t) ∧
    executeBash true command restart =
      .result { success := true, output := "[DRY_RUN] Would execute: " ++ command,
                error := none } := by
  have hcase :
      executeBash false command restart =
        .result { success := false, error := some "Missing 'command'" } ∨
      executeBash false command restart =
        .result { success := false, error := some "Dangerous command blocked" } := by
    by_cases hc : (command == "" && !restart) = true
    · left
      simp [executeBash, hc]
    · right
      simp [executeBash, hc, hd]
  rcases hcase with h | h <;>
    exact ⟨⟨_, h, rfl⟩, fun c t => by simp [h], by simp [executeBash]⟩

/-- Witness for `denylist_blocks_before_spawn` on a command embedding the
`rm -rf /` pattern. -/
theorem denylist_blocks_before_spawn_witness :
    dangerousPatterns.any
      (fun d => strContainsSub "sudo rm -rf / --no-preserve-root" d) = true ∧
    ∃ r : ToolResultEnv,
      executeBash false "sudo rm -rf / --no-preserve-root" false = .result r ∧
        r.success = false := by
  exact ⟨by decide,
    (denylist_blocks_before_spawn "sudo rm -rf / --no-preserve-root" false
      (by decide)).1⟩

/-- C7 counterexample. A failed shell command with non-empty stdout and
stderr yields an envelope whose `output` and `error` are BOTH populated:
`{success: False, output: stdout, error: stderr}` — error and output are
not mutually exclusive. -/
theorem envelope_both_populated_counterexample :
    bashResultEnvelope 1 "partial stdout" "boom" =
      { success := false, output := "partial stdout", error := some "boom" } ∧
    (bashResultEnvelope 1 "partial stdout" "boom").output ≠ "" ∧
    (bashResultEnvelope 1 "partial stdout" "boom").error ≠ none := by decide

/-- C7 amended. In the shell envelope, the success flag and the error slot
do track each other exactly — `success` iff exit code 0 iff `error` is
`None`, so a successful result never carries an error — but a failed
result may carry a populated `output` (stdout or stderr) alongside its
error. -/
theorem envelope_error_iff_failure (returncode : ℤ) (stdout stderr : String) :
    ((bashResultEnvelope returncode stdout stderr).success = true ↔ returncode = 0) ∧
    ((bashResultEnvelope returncode stdout stderr).error = none ↔ returncode = 0) ∧
    ((bashResultEnvelope returncode stdout stderr).success = true →
      (bashResultEnvelope returncode stdout stderr).error = none) := by
  by_cases h : returncode = 0 <;> simp [bashResultEnvelope, h]

/-- Leftmost-occurrence characterization of `replaceFirst`: whenever the
target occurs, the input splits as `pre ++ old ++ suf` with `pre` minimal
(no occurrence starts before it), and the result is exactly
`pre ++ new ++ suf` — the suffix, and hence every later occurrence, is
untouched. -/
theorem replaceFirst_spec (old new : List Char) : ∀ s : List Char,
    containsSub s old = true →
    ∃ pre suf, s = pre ++ old ++ suf ∧
      replaceFirst s old new = pre ++ new ++ suf ∧
      ∀ i < pre.length, old.isPrefixOf (s.drop i) = false := by
  intro s
  induction s with
  | nil =>
    intro h
    have hp : old.isPrefixOf ([] : List Char) = true := by
      by_contra hcon
      simp only [containsSub, Bool.not_eq_true] at h hcon
      rw [hcon] at h
      simp at h
    have hold : old = [] := by
      cases old with
      | nil => rfl
      | cons a as => simp [List.isPrefixOf] at hp
    subst hold
    exact ⟨[], [], rfl, by simp [replaceFirst], by simp⟩
  | cons c rest ih =>
    intro h
    by_cases hp : old.isPrefixOf (c :: rest) = true
    · obtain ⟨t, ht⟩ := List.isPrefixOf_iff_prefix.mp hp
      refine ⟨[], (c :: rest).drop old.length, ?_, ?_, by simp⟩
      · rw [← ht, List.nil_append, List.drop_left]
      · simp only [replaceFirst, if_pos hp, List.nil_append]
    · have hrest : containsSub rest old = true := by
        simp only [containsSub, Bool.not_eq_true] at h ⊢
        rw [Bool.not_eq_true] at hp
        rw [hp] at h
        simpa using h
      obtain ⟨pre, suf, h1, h2, h3⟩ := ih hrest
      refine ⟨c :: pre, suf, by simp [h1], ?_, ?_⟩
      · simp only [replaceFirst, if_neg hp, h2, List.cons_append]
      · intro i hi
        cases i with
        | zero =>
          simpa using Bool.not_eq_true _ |>.mp hp
        | succ j =>
          have hj : j < pre.length := by
            simpa using Nat.lt_of_succ_lt_succ hi
          simpa using h3 j hj

/-- C8. `_str_replace` on an existing file: when the target string does
not occur it fails with "String not found in file" and writes nothing;
when it occurs, the file is rewritten with exactly the leftmost
occurrence replaced — prefix, suffix, and therefore every other
occurrence, unchanged. -/
theorem str_replace_first_occurrence (path content old_str new_str : String) :
    (containsSub content.data old_str.data = false →
      strReplace path true content old_str new_str =
        ⟨{ success := false, output := "", error := some "String not found in file" },
          none⟩) ∧
    (containsSub content.data old_str.data = true →
      (strReplace path true content old_str new_str).env.success = true ∧
      ∃ pre suf, content.data = pre ++ old_str.data ++ suf ∧
        (strReplace path true content old_str new_str).written =
          some (pre ++ new_str.data ++ suf) ∧
        ∀ i < pre.length, old_str.data.isPrefixOf (content.data.drop i) = false) := by
  constructor
  · intro h
    simp [strReplace, h]
  · intro h
    obtain ⟨pre, suf, h1, h2, h3⟩ :=
      replaceFirst_spec old_str.data new_str.data content.data h
    refine ⟨by simp [strReplace, h], pre, suf, h1, ?_, h3⟩
    simp [strReplace, h, h2]

/-- Witness for `str_replace_first_occurrence`: replacing `"ba"` by `"z"`
in `"ababa"` rewrites only the occurrence at index 1. -/
theorem str_replace_first_occurrence_witness :
    containsSub "ababa".data "ba".data = true ∧
    ((strReplace "f.txt" true "ababa" "ba" "z").env.success = true ∧
      ∃ pre suf, "ababa".data = pre ++ "ba".data ++ suf ∧
        (strReplace "f.txt" true "ababa" "ba" "z").written =
          some (pre ++ "z".data ++ suf) ∧
        ∀ i < pre.length, "ba".data.isPrefixOf ("ababa".data.drop i) = false) := by
  exact ⟨by decide, (str_replace_first_occurrence "f.txt" "ababa" "ba" "z").2 (by decide)⟩

end AG
